import Mathlib

/-!
Verification development for the FundChat backend.

The definitions below are a shallow embedding of the Python sources:
  - Backend/app/services/rag_service.py      (RAGService.query)
  - Backend/app/services/document_processor.py (DocumentProcessor)
  - Backend/app/services/mongodb_service_fixed.py (MongoDBService)
  - Backend/app/main.py                      (endpoint logic)
External collaborators (the Pinecone vector index, the langchain retriever
and LLM chain, the langchain text splitter, uuid generation, wall-clock
timestamps) are modelled as explicit function parameters or plain inputs;
everything the repository itself computes is translated directly.
-/

/-! ## String helpers

Python string operations modelled on the character list of a string, so that
all definitions reduce inside the kernel. -/

/-- Character-wise lower-casing, the model of the Python str.lower call. -/
def lowerStr (s : String) : String :=
  ⟨s.data.map Char.toLower⟩

/-- Bool test that pat is a prefix of s (on character lists). -/
def prefixMatch : List Char → List Char → Bool
  | [], _ => true
  | _ :: _, [] => false
  | a :: pa, b :: sb => a == b && prefixMatch pa sb

/-- Bool test that pat occurs contiguously inside s: the model of the Python
in operator on strings. -/
def infixMatch (pat : List Char) : List Char → Bool
  | [] => prefixMatch pat []
  | b :: sb => prefixMatch pat (b :: sb) || infixMatch pat sb

/-- The Python expression pat in s for strings. -/
def substringOf (pat s : String) : Bool :=
  infixMatch pat.data s.data

/-! ## Data model of retrieved chunks (rag_service.py)

A retrieved langchain Document carries page_content and a metadata
dictionary. The metadata keys read by RAGService.query are file_name,
page_number, type and chunk; a missing key is a none here, and each read
site applies the same default the Python dict.get call uses. -/

/-- Metadata dictionary of one retrieved chunk, restricted to the keys
RAGService.query reads. -/
structure ChunkMeta where
  file_name : Option String
  page_number : Option String
  type : Option String
  chunk : Option Nat
  deriving DecidableEq, Repr

/-- A retrieved chunk: page_content plus its metadata. -/
structure Document where
  page_content : String
  metadata : ChunkMeta
  deriving DecidableEq, Repr

/-! ## Retrieval planning (rag_service.py lines 50-61) -/

/-- The fixed broadening keyword set of rag_service.py line 52. -/
def broadeningKeywords : List String :=
  ["summarize", "summary", "overview", "describe", "what is"]

/-- Lines 52-56: adjusted_top_k is max top_k 10 when the lower-cased query
contains any broadening keyword, else top_k unchanged. -/
def adjustTopK (query : String) (top_k : Nat) : Nat :=
  if broadeningKeywords.any (fun kw => substringOf kw (lowerStr query)) then
    max top_k 10
  else
    top_k

/-- Python truthiness of the optional document_ids argument: None and the
empty list are falsy. -/
def truthy (ids : Option (List String)) : Bool :=
  match ids with
  | some (_ :: _) => true
  | _ => false

/-- The filter dictionary of lines 58-61: always the fund_id equality, plus a
doc_id membership restriction when document_ids is truthy. -/
structure RetrievalFilter where
  fund_id : String
  doc_id_in : Option (List String)
  deriving DecidableEq, Repr

/-- Lines 58-61 of rag_service.py. -/
def buildFilter (fund_id : String) (document_ids : Option (List String)) : RetrievalFilter :=
  { fund_id := fund_id
    doc_id_in := if truthy document_ids then document_ids else none }

/-! ## Context assembly (rag_service.py lines 109-137) -/

/-- Line 112: source name of a chunk, defaulting to Unknown. -/
def sourceName (d : Document) : String :=
  d.metadata.file_name.getD "Unknown"

/-- One step of building the docs_by_source dictionary: append the chunk to
the existing entry for its name, or add a new entry at the end. A Python
dict preserves insertion order, so it is modelled as an ordered association
list. -/
def insertGroup : List (String × List Document) → String → Document → List (String × List Document)
  | [], name, d => [(name, [d])]
  | g :: rest, name, d =>
      if g.1 = name then (g.1, g.2 ++ [d]) :: rest
      else g :: insertGroup rest name d

/-- Lines 110-115: group the retrieved chunks by file_name, in first-seen
order of the names. -/
def groupBySource (docs : List Document) : List (String × List Document) :=
  docs.foldl (fun gs d => insertGroup gs (sourceName d) d) []

/-- Line 121: the document header emitted in front of each group. -/
def headerBlock (name : String) : String :=
  "\n--- DOCUMENT: " ++ name ++ " ---\n"

/-- Lines 124-133: the rendering of one chunk according to its metadata type,
with the dict.get defaults text, Unknown page and Unknown chunk. -/
def renderChunk (d : Document) : String :=
  let ty := d.metadata.type.getD "text"
  let page := d.metadata.page_number.getD "Unknown page"
  let ck := (d.metadata.chunk.map (fun n => toString n)).getD "Unknown chunk"
  if ty = "table" then
    "[TABLE from page " ++ page ++ ", chunk " ++ ck ++ "]:\n" ++ d.page_content
  else if ty = "image" then
    "[IMAGE from page " ++ page ++ ", chunk " ++ ck ++ "]"
  else
    "[CONTENT from page " ++ page ++ ", chunk " ++ ck ++ "]:\n" ++ d.page_content

/-- Lines 123-133 as written: the inner for loop only rebinds doc, doc_type,
page and chunk, and the if-elif-else that appends a rendering stands after
the loop at the same indentation, so exactly one rendering is appended per
group, taken from the last chunk of the group. -/
def renderGroupBlocks (group : List Document) : List String :=
  match group.getLast? with
  | none => []
  | some d => [renderChunk d]

/-- The formatted_docs list built by lines 117-133. -/
def formattedDocs (docs : List Document) : List String :=
  (groupBySource docs).flatMap (fun g => headerBlock g.1 :: renderGroupBlocks g.2)

/-- Line 135: the assembled context string. -/
def formatContext (docs : List Document) : String :=
  String.intercalate "\n\n" (formattedDocs docs)

/-- The rendering the spec describes instead: a header per group followed by
a rendering of every chunk of the group. Stated only to compare with
formattedDocs. -/
def formattedDocsSpec (docs : List Document) : List String :=
  (groupBySource docs).flatMap (fun g => headerBlock g.1 :: g.2.map renderChunk)

/-! ## Source deduplication (rag_service.py lines 151-163) -/

/-- Line 156: the identity key of a source record, hyphen-joined, with
missing keys read as empty strings. -/
def sourceId (m : ChunkMeta) : String :=
  m.file_name.getD "" ++ "-" ++ m.page_number.getD "" ++ "-" ++ m.type.getD ""

/-- The identity key as the spec words it, pipe-joined. Stated only to
compare with sourceId. -/
def sourceIdSpec (m : ChunkMeta) : String :=
  m.file_name.getD "" ++ "|" ++ m.page_number.getD "" ++ "|" ++ m.type.getD ""

/-- The loop of lines 153-159, with the seen set of keys carried along. -/
def dedupeAux (seen : List String) : List ChunkMeta → List ChunkMeta
  | [] => []
  | s :: rest =>
      if sourceId s ∈ seen then dedupeAux seen rest
      else s :: dedupeAux (sourceId s :: seen) rest

/-- Lines 153-159: unique_sources, keeping the first record of each key. -/
def dedupeSources (sources : List ChunkMeta) : List ChunkMeta :=
  dedupeAux [] sources

/-! ## The query pipeline (rag_service.py lines 36-163)

The vector store retriever and the RetrievalQA chain are the external
collaborators: retrieve stands for as_retriever followed by
get_relevant_documents, and chainAnswer for the chain built from the llm,
the fixed prompt and that same retriever, invoked on the query. The chain
receives only the retriever configuration and the raw query; the locally
assembled context string is not an input to it, exactly as in the source. -/

/-- The answer, the assembled context and the deduplicated sources of one
RAGService.query call, with the context assembler kept as a parameter. -/
def RAGService.queryWith (assemble : List Document → String)
    (retrieve : Nat → RetrievalFilter → String → List Document)
    (chainAnswer : Nat → RetrievalFilter → String → String)
    (query : String) (fund_id : String) (top_k : Nat)
    (document_ids : Option (List String)) : String × String × List ChunkMeta :=
  let adjusted_top_k := adjustTopK query top_k
  let filter_dict := buildFilter fund_id document_ids
  let docs := retrieve adjusted_top_k filter_dict query
  let sources := docs.map (fun d => d.metadata)
  let context := assemble docs
  let answer := chainAnswer adjusted_top_k filter_dict query
  (answer, context, dedupeSources sources)

/-- RAGService.query itself: the context assembler is the formatting of
lines 109-137. -/
def RAGService.query (retrieve : Nat → RetrievalFilter → String → List Document)
    (chainAnswer : Nat → RetrievalFilter → String → String)
    (query : String) (fund_id : String) (top_k : Nat)
    (document_ids : Option (List String)) : String × String × List ChunkMeta :=
  RAGService.queryWith formatContext retrieve chainAnswer query fund_id top_k document_ids

/-! ## Chat endpoint widening (main.py lines 291-318) -/

/-- Lines 304-311: adjusted_top_k before the rag service call, raised for a
multi-document fund when no document_ids restriction is supplied. -/
def chatAdjustedTopK (top_k doc_count : Nat) (document_ids : Option (List String)) : Nat :=
  if 1 < doc_count ∧ truthy document_ids = false then
    max top_k (min 15 (5 * doc_count))
  else
    top_k

/-- The k that ultimately reaches the retriever for one chat request: the
endpoint widening of lines 304-311 composed with the keyword widening the
rag service applies to its top_k argument (rag_service.py lines 52-56). -/
def chatEffectiveK (message : String) (top_k doc_count : Nat)
    (document_ids : Option (List String)) : Nat :=
  adjustTopK message (chatAdjustedTopK top_k doc_count document_ids)

/-! ## Fund summary regeneration on read (main.py lines 234-255) -/

/-- The sentinel answer of the fixed prompt. -/
def notEnoughInfo : String :=
  "I don't have enough information to answer this question."

/-- Line 235: the regeneration trigger. The stored summary is compared with
the sentinel Empty, and the count mismatch arm additionally requires the
stored document_count (dict.get default 0) to be positive. -/
def shouldRegenerate (summary : Option String) (stored_count live_count : Nat) : Bool :=
  summary == some "Empty" ||
    ((stored_count != live_count) && decide (0 < stored_count))

/-- Lines 235-255 reduced to their persistence decision: the summary written
back by the read path, none when nothing is persisted. The generated answer
of the inner rag query is an input. -/
def getFundRegen (summary : Option String) (stored_count live_count : Nat)
    (generated : String) : Option String :=
  if shouldRegenerate summary stored_count live_count then
    if generated != "" && generated != notEnoughInfo then some generated else none
  else
    none

/-! ## Chunker and indexer (document_processor.py lines 152-288)

The langchain RecursiveCharacterTextSplitter is an external collaborator: it
is modelled as a function parameter receiving exactly the configuration the
source constructs at lines 164-169. The uuid and the timestamp are inputs. -/

/-- The constructor arguments of the text splitter (lines 164-169). -/
structure SplitterConfig where
  chunk_size : Nat
  chunk_overlap : Nat
  separators : List String
  keep_separator : Bool
  deriving DecidableEq, Repr

/-- Lines 164-169: chunks of up to 1000 characters, 200 overlap, breaking at
paragraph, then line, then word, then character, separators kept. -/
def pineconeSplitterConfig : SplitterConfig :=
  { chunk_size := 1000
    chunk_overlap := 200
    separators := ["\n\n", "\n", " ", ""]
    keep_separator := true }

/-- The caller-supplied document metadata of process_file lines 251-256. -/
structure DocMetadataIn where
  file_name : String
  file_type : String
  fund_id : String
  created_at : String
  deriving DecidableEq, Repr

/-- One chunk as submitted to the vector index, after the metadata loop of
lines 175-187. -/
structure ChunkRecord where
  chunk_id : String
  chunk : Nat
  total_chunks : Nat
  doc_id : String
  fund_id : String
  file_name : String
  file_type : String
  created_at : String
  page_content : String
  deriving DecidableEq, Repr

/-- Lines 152-196 of document_processor.py: split the text with the fixed
configuration and attach the chunk metadata; doc_id is the uuid drawn once
for the whole call (line 161). -/
def DocumentProcessor.add_to_pinecone (split : SplitterConfig → String → List String)
    (text : String) (metadata : DocMetadataIn) (doc_id : String) : List ChunkRecord :=
  ((List.range (split pineconeSplitterConfig text).length).zip
      (split pineconeSplitterConfig text)).map (fun p =>
    { chunk_id := doc_id ++ "_" ++ toString p.1
      chunk := p.1
      total_chunks := (split pineconeSplitterConfig text).length
      doc_id := doc_id
      fund_id := metadata.fund_id
      file_name := metadata.file_name
      file_type := metadata.file_type
      created_at := metadata.created_at
      page_content := p.2 })

/-- Lines 249-278 of process_file, starting at the already extracted text:
the guard of lines 258-260 reports failure and submits nothing when the text
is empty or whitespace-only; otherwise every chunk of add_to_pinecone is
submitted and success is reported. The pair is (reported success, chunks
submitted to the vector index). -/
def DocumentProcessor.process_file (split : SplitterConfig → String → List String)
    (text file_name file_type fund_id created_at doc_id : String) :
    Bool × List ChunkRecord :=
  if text == "" || text.data.all Char.isWhitespace then
    (false, [])
  else
    (true, DocumentProcessor.add_to_pinecone split text
      ⟨file_name, file_type, fund_id, created_at⟩ doc_id)

/-! ## Fund deletion (mongodb_service_fixed.py lines 159-188, main.py 342-363)

The metadata store and the vector index are modelled as one explicit state.
The vector index appears in the state only to record that delete_fund never
touches it. -/

/-- A stored fund row, keyed by its id. -/
structure FundRecord where
  fund_id : String
  fund_name : String
  summary : String
  document_count : Nat
  deriving DecidableEq, Repr

/-- A stored document metadata row. -/
structure DocRecord where
  doc_id : String
  fund_id : String
  file_name : String
  deriving DecidableEq, Repr

/-- The externally owned state: fund rows, document rows, and the chunks
held by the vector index. -/
structure DBState where
  funds : List FundRecord
  documents : List DocRecord
  vectors : List ChunkRecord
  deriving DecidableEq, Repr

/-- mongodb_service_fixed.py lines 75-94: find_one on the funds collection. -/
def MongoDBService.get_fund (st : DBState) (fund_id : String) : Option FundRecord :=
  st.funds.find? (fun f => f.fund_id == fund_id)

/-- mongodb_service_fixed.py lines 58-73: all fund rows. -/
def MongoDBService.list_funds (st : DBState) : List FundRecord :=
  st.funds

/-- mongodb_service_fixed.py lines 159-188: delete_many of the document rows
of the fund, delete_one of the fund row, success when a fund row was
deleted. The vector index is not touched. -/
def MongoDBService.delete_fund (st : DBState) (fund_id : String) : DBState × Bool :=
  let documents := st.documents.filter (fun d => d.fund_id != fund_id)
  let funds := st.funds.eraseP (fun f => f.fund_id == fund_id)
  let success := st.funds.any (fun f => f.fund_id == fund_id)
  ({ funds := funds, documents := documents, vectors := st.vectors }, success)

/-- Outcome of the delete endpoint. -/
inductive ApiOutcome where
  | ok
  | notFound
  | serverError
  deriving DecidableEq, Repr

/-- main.py lines 342-363: 404 when the fund is absent, otherwise the
service-level delete, 500 when it reports failure. -/
def Api.delete_fund (st : DBState) (fund_id : String) : DBState × ApiOutcome :=
  match MongoDBService.get_fund st fund_id with
  | none => (st, ApiOutcome.notFound)
  | some _ =>
      let r := MongoDBService.delete_fund st fund_id
      (r.1, if r.2 then ApiOutcome.ok else ApiOutcome.serverError)

/-! ## Helper lemmas about the deduplication loop -/

/-- The deduplicated list is a sublist of the input: records are kept in
first-seen order and none is invented. -/
lemma dedupeAux_sublist (seen : List String) (l : List ChunkMeta) :
    (dedupeAux seen l).Sublist l := by
  induction l generalizing seen with
  | nil => simp [dedupeAux]
  | cons s rest ih =>
      rw [dedupeAux]
      split
      · exact (ih seen).cons s
      · exact (ih _).cons₂ s

/-- A key appears among the output keys exactly when it is not yet seen and
appears among the input keys. -/
lemma sourceId_mem_dedupeAux (seen : List String) (l : List ChunkMeta) (k : String) :
    k ∈ (dedupeAux seen l).map sourceId ↔ (k ∉ seen ∧ k ∈ l.map sourceId) := by
  induction l generalizing seen with
  | nil => simp [dedupeAux]
  | cons s rest ih =>
      rw [dedupeAux]
      by_cases hks : k = sourceId s
      · subst hks
        split <;> simp_all [ih]
      · split <;> simp_all [ih]

/-- The output keys carry no duplicate. -/
lemma nodup_dedupeAux (seen : List String) (l : List ChunkMeta) :
    ((dedupeAux seen l).map sourceId).Nodup := by
  induction l generalizing seen with
  | nil => simp [dedupeAux]
  | cons s rest ih =>
      rw [dedupeAux]
      split
      · exact ih seen
      · rw [List.map_cons]
        refine List.nodup_cons.mpr ⟨fun hmem => ?_, ih _⟩
        exact ((sourceId_mem_dedupeAux _ _ _).mp hmem).1 (List.mem_cons_self _ _)

/-! ## Claim theorems -/

/-- C1: on a group of two text chunks of the same document the assembler
emits the document header and then a rendering of only the last chunk; the
rendering of every chunk that the spec describes differs. The text of the
first chunk never reaches the context. -/
theorem assemble_renders_only_last_chunk_of_group :
    formattedDocs
        [⟨"A", ⟨some "f.txt", some "1", none, some 0⟩⟩,
         ⟨"B", ⟨some "f.txt", some "1", none, some 1⟩⟩]
      = ["\n--- DOCUMENT: f.txt ---\n", "[CONTENT from page 1, chunk 1]:\nB"]
    ∧ formattedDocsSpec
        [⟨"A", ⟨some "f.txt", some "1", none, some 0⟩⟩,
         ⟨"B", ⟨some "f.txt", some "1", none, some 1⟩⟩]
      = ["\n--- DOCUMENT: f.txt ---\n",
         "[CONTENT from page 1, chunk 0]:\nA",
         "[CONTENT from page 1, chunk 1]:\nB"]
    ∧ formattedDocs
        [⟨"A", ⟨some "f.txt", some "1", none, some 0⟩⟩,
         ⟨"B", ⟨some "f.txt", some "1", none, some 1⟩⟩]
      ≠ formattedDocsSpec
        [⟨"A", ⟨some "f.txt", some "1", none, some 0⟩⟩,
         ⟨"B", ⟨some "f.txt", some "1", none, some 1⟩⟩] := by
  decide

/-- C2: the answer component of RAGService.query does not depend on the
assembled context string. Replacing the context assembler by any other
function leaves the answer unchanged, and the answer equals the chain
invocation determined by the retriever configuration and the raw query
alone. -/
theorem answer_independent_of_assembled_context
    (assembleA assembleB : List Document → String)
    (retrieve : Nat → RetrievalFilter → String → List Document)
    (chainAnswer : Nat → RetrievalFilter → String → String)
    (query fund_id : String) (top_k : Nat) (document_ids : Option (List String)) :
    (RAGService.queryWith assembleA retrieve chainAnswer query fund_id top_k document_ids).1
      = (RAGService.queryWith assembleB retrieve chainAnswer query fund_id top_k document_ids).1
    ∧ (RAGService.query retrieve chainAnswer query fund_id top_k document_ids).1
      = chainAnswer (adjustTopK query top_k) (buildFilter fund_id document_ids) query :=
  ⟨rfl, rfl⟩

/-- C4: the effective count is max requested 10 exactly when the lower-cased
query contains a broadening keyword, else the requested count; it never
shrinks, and the query Summarize the fund with requested 5 yields 10. -/
theorem effective_k_broadening (query : String) (requested_k : Nat) :
    adjustTopK query requested_k
      = (if broadeningKeywords.any (fun kw => substringOf kw (lowerStr query))
          then max requested_k 10 else requested_k)
    ∧ requested_k ≤ adjustTopK query requested_k
    ∧ adjustTopK "Summarize the fund" 5 = 10 := by
  refine ⟨rfl, ?_, by decide⟩
  unfold adjustTopK
  split
  · omega
  · exact Nat.le_refl _

/-- C3: with more than one document and no document_ids restriction, the k
reaching the retriever is the maximum of the keyword-widened requested count
and min 15 (5 * doc_count); with 3 documents and requested 5 it is 15 for
every message. -/
theorem chat_multi_document_widening
    (message : String) (top_k doc_count : Nat) (document_ids : Option (List String))
    (hdc : 1 < doc_count) (hids : truthy document_ids = false) :
    chatEffectiveK message top_k doc_count document_ids
      = max (adjustTopK message top_k) (min 15 (5 * doc_count))
    ∧ (∀ m : String, chatEffectiveK m 5 3 none = 15) := by
  constructor
  · unfold chatEffectiveK chatAdjustedTopK
    rw [if_pos (And.intro hdc hids)]
    unfold adjustTopK
    by_cases hb : (broadeningKeywords.any fun kw => substringOf kw (lowerStr message)) = true
    · simp only [hb, if_true]
      omega
    · simp only [if_neg hb]
  · intro m
    unfold chatEffectiveK chatAdjustedTopK
    rw [if_pos (And.intro (by decide : (1 : Nat) < 3) (by decide : truthy none = false))]
    unfold adjustTopK
    by_cases hb : (broadeningKeywords.any fun kw => substringOf kw (lowerStr m)) = true
    · simp only [hb, if_true]
      decide
    · simp only [if_neg hb]
      decide

/-- Witness for C3 at a concrete state: three documents, no restriction,
requested 5. -/
theorem chat_multi_document_widening_witness :
    chatEffectiveK "What was the revenue?" 5 3 none
        = max (adjustTopK "What was the revenue?" 5) (min 15 (5 * 3))
    ∧ chatEffectiveK "z" 5 3 none = 15 :=
  ⟨(chat_multi_document_widening "What was the revenue?" 5 3 none (by decide) rfl).1,
   (chat_multi_document_widening "z" 5 3 none (by decide) rfl).2 "z"⟩

/-- C5 counterexample: a fund whose stored summary is not Empty, stored
document_count 0 and live document count 2. The live count is positive and
differs from the stored count, so the claim requires regeneration, yet the
code path does not trigger because its guard tests the stored count. -/
theorem regen_trigger_counterexample :
    shouldRegenerate (some "Existing summary") 0 2 = false
    ∧ (0 : Nat) ≠ 2 ∧ (0 : Nat) < 2
    ∧ some "Existing summary" ≠ some "Empty" := by
  decide

/-- C5 amended: regeneration triggers exactly when the stored summary is the
sentinel Empty, or the stored document_count differs from the live count
while the stored count is positive; when triggered, the generated summary is
persisted exactly when it is non-empty and not the not-enough-information
sentinel, and nothing else is ever persisted. -/
theorem regen_trigger_and_persist (summary : Option String) (stored_count live_count : Nat)
    (generated : String) :
    (shouldRegenerate summary stored_count live_count = true
        ↔ (summary = some "Empty" ∨ (stored_count ≠ live_count ∧ 0 < stored_count)))
    ∧ (getFundRegen summary stored_count live_count generated = some generated
        ↔ (shouldRegenerate summary stored_count live_count = true
            ∧ generated ≠ "" ∧ generated ≠ notEnoughInfo))
    ∧ (getFundRegen summary stored_count live_count generated = some generated
        ∨ getFundRegen summary stored_count live_count generated = none) := by
  refine ⟨?_, ?_, ?_⟩
  · simp [shouldRegenerate, bne_iff_ne]
  · unfold getFundRegen
    by_cases hs : shouldRegenerate summary stored_count live_count = true
    · simp only [hs, if_true, true_and]
      by_cases hg : (generated != "" && generated != notEnoughInfo) = true
      · simp only [hg, if_true]
        simp only [Bool.and_eq_true, bne_iff_ne] at hg
        simp [hg]
      · simp only [if_neg hg]
        simp only [Bool.and_eq_true, bne_iff_ne, not_and_or, not_not] at hg
        constructor
        · intro h; cases h
        · rintro ⟨h1, h2⟩
          rcases hg with h | h
          · exact absurd h h1
          · exact absurd h h2
    · simp [hs]
  · unfold getFundRegen
    by_cases hs : shouldRegenerate summary stored_count live_count = true
    · by_cases hg : (generated != "" && generated != notEnoughInfo) = true
      · simp [hs, hg]
      · simp [hs, hg]
    · simp [hs]

/-- C6 counterexample: two metadata records whose pipe-joined keys differ
but whose hyphen-joined keys coincide; the code returns one record where the
claim, keyed with pipes, requires two. -/
theorem dedupe_pipe_key_counterexample :
    (dedupeSources
        [⟨some "a", some "b-c", none, none⟩,
         ⟨some "a-b", some "c", none, none⟩]).length = 1
    ∧ sourceIdSpec ⟨some "a", some "b-c", none, none⟩
        ≠ sourceIdSpec ⟨some "a-b", some "c", none, none⟩ := by
  decide

/-- C8: whenever the extracted text is empty or whitespace-only, processing
reports failure and submits no chunk to the vector index. -/
theorem empty_text_rejected_not_indexed
    (split : SplitterConfig → String → List String)
    (text file_name file_type fund_id created_at doc_id : String)
    (h : text.data.all Char.isWhitespace = true) :
    DocumentProcessor.process_file split text file_name file_type fund_id created_at doc_id
      = (false, []) := by
  unfold DocumentProcessor.process_file
  rw [h, Bool.or_true]
  rfl

/-- Witness for C8 on a whitespace-only text. -/
theorem empty_text_rejected_not_indexed_witness :
    ("  \n".data.all Char.isWhitespace = true)
    ∧ DocumentProcessor.process_file (fun _ t => [t]) "  \n" "a.txt" "txt" "fund1" "2024" "doc1"
      = (false, []) :=
  ⟨by decide,
   empty_text_rejected_not_indexed (fun _ t => [t]) "  \n" "a.txt" "txt" "fund1" "2024" "doc1"
     (by decide)⟩

/-- A map that ignores its argument yields a replicate of the same length. -/
lemma list_map_constant {α β : Type} (l : List α) (b : β) :
    l.map (fun _ => b) = List.replicate l.length b := by
  induction l with
  | nil => rfl
  | cons a l ih => simp [ih, List.replicate_succ]

/-- C9: the chunks submitted for one add_to_pinecone call are exactly the
splitter output under the fixed 1000/200 paragraph-line-word configuration
with separators kept, in order; their chunk indices are exactly
0..N-1, total_chunks is the final count N on every chunk, every chunk
carries the one doc_id of the call, the caller-supplied fund_id, file_name
and file_type, and chunk_id is doc_id underscore index. -/
theorem chunk_metadata_assignment
    (split : SplitterConfig → String → List String)
    (text : String) (metadata : DocMetadataIn) (doc_id : String) :
    pineconeSplitterConfig = ⟨1000, 200, ["\n\n", "\n", " ", ""], true⟩
    ∧ (DocumentProcessor.add_to_pinecone split text metadata doc_id).map
        (fun c => c.page_content) = split pineconeSplitterConfig text
    ∧ (DocumentProcessor.add_to_pinecone split text metadata doc_id).map (fun c => c.chunk)
        = List.range (DocumentProcessor.add_to_pinecone split text metadata doc_id).length
    ∧ (DocumentProcessor.add_to_pinecone split text metadata doc_id).map (fun c => c.chunk_id)
        = (List.range (DocumentProcessor.add_to_pinecone split text metadata doc_id).length).map
            (fun i => doc_id ++ "_" ++ toString i)
    ∧ (DocumentProcessor.add_to_pinecone split text metadata doc_id).map (fun c => c.total_chunks)
        = List.replicate (DocumentProcessor.add_to_pinecone split text metadata doc_id).length
            (DocumentProcessor.add_to_pinecone split text metadata doc_id).length
    ∧ (DocumentProcessor.add_to_pinecone split text metadata doc_id).map (fun c => c.doc_id)
        = List.replicate (DocumentProcessor.add_to_pinecone split text metadata doc_id).length
            doc_id
    ∧ (DocumentProcessor.add_to_pinecone split text metadata doc_id).map (fun c => c.fund_id)
        = List.replicate (DocumentProcessor.add_to_pinecone split text metadata doc_id).length
            metadata.fund_id
    ∧ (DocumentProcessor.add_to_pinecone split text metadata doc_id).map (fun c => c.file_name)
        = List.replicate (DocumentProcessor.add_to_pinecone split text metadata doc_id).length
            metadata.file_name
    ∧ (DocumentProcessor.add_to_pinecone split text metadata doc_id).map (fun c => c.file_type)
        = List.replicate (DocumentProcessor.add_to_pinecone split text metadata doc_id).length
            metadata.file_type := by
  have hzlen : ((List.range (split pineconeSplitterConfig text).length).zip
      (split pineconeSplitterConfig text)).length
      = (split pineconeSplitterConfig text).length := by
    simp
  have hlen : (DocumentProcessor.add_to_pinecone split text metadata doc_id).length
      = (split pineconeSplitterConfig text).length := by
    simp [DocumentProcessor.add_to_pinecone]
  refine ⟨rfl, ?_, ?_, ?_, ?_, ?_, ?_, ?_, ?_⟩
  · unfold DocumentProcessor.add_to_pinecone
    rw [List.map_map]
    exact List.map_snd_zip _ _ (by simp)
  · rw [hlen]
    unfold DocumentProcessor.add_to_pinecone
    rw [List.map_map]
    exact List.map_fst_zip _ _ (by simp)
  · rw [hlen]
    unfold DocumentProcessor.add_to_pinecone
    rw [List.map_map]
    show List.map ((fun i => doc_id ++ "_" ++ toString i) ∘ Prod.fst) _ = _
    rw [← List.map_map, List.map_fst_zip _ _ (by simp)]
  · rw [hlen]
    unfold DocumentProcessor.add_to_pinecone
    rw [List.map_map]
    show List.map (fun _ => (split pineconeSplitterConfig text).length) _ = _
    rw [list_map_constant, hzlen]
  · rw [hlen]
    unfold DocumentProcessor.add_to_pinecone
    rw [List.map_map]
    show List.map (fun _ => doc_id) _ = _
    rw [list_map_constant, hzlen]
  · rw [hlen]
    unfold DocumentProcessor.add_to_pinecone
    rw [List.map_map]
    show List.map (fun _ => metadata.fund_id) _ = _
    rw [list_map_constant, hzlen]
  · rw [hlen]
    unfold DocumentProcessor.add_to_pinecone
    rw [List.map_map]
    show List.map (fun _ => metadata.file_name) _ = _
    rw [list_map_constant, hzlen]
  · rw [hlen]
    unfold DocumentProcessor.add_to_pinecone
    rw [List.map_map]
    show List.map (fun _ => metadata.file_type) _ = _
    rw [list_map_constant, hzlen]

/-- After erasing the first row matching a key, no row with that key is
found any more, provided fund ids are unique. -/
lemma find?_eraseP_eq_none (l : List FundRecord) (fid : String)
    (hnd : (l.map (fun f => f.fund_id)).Nodup) :
    (l.eraseP (fun f => f.fund_id == fid)).find? (fun f => f.fund_id == fid) = none := by
  induction l with
  | nil => rfl
  | cons g gs ih =>
      rw [List.map_cons, List.nodup_cons] at hnd
      by_cases hg : (g.fund_id == fid) = true
      · have he : List.eraseP (fun f => f.fund_id == fid) (g :: gs) = gs := by
          simp [List.eraseP_cons, hg]
        rw [he, List.find?_eq_none]
        intro x hx hpx
        apply hnd.1
        have h1 : g.fund_id = fid := by simpa using hg
        have h2 : x.fund_id = fid := by simpa using hpx
        rw [h1, ← h2]
        exact List.mem_map_of_mem _ hx
      · have hg2 : (g.fund_id == fid) = false := by simpa using hg
        have he : List.eraseP (fun f => f.fund_id == fid) (g :: gs)
            = g :: List.eraseP (fun f => f.fund_id == fid) gs := by
          simp [List.eraseP_cons, hg2]
        have hf : List.find? (fun f => f.fund_id == fid)
            (g :: List.eraseP (fun f => f.fund_id == fid) gs)
            = List.find? (fun f => f.fund_id == fid)
                (List.eraseP (fun f => f.fund_id == fid) gs) := by
          simp [List.find?_cons, hg2]
        rw [he, hf]
        exact ih hnd.2

/-- A delete request for an absent fund leaves the state unchanged and
reports not-found. -/
lemma api_delete_not_found (st : DBState) (fid : String)
    (h : MongoDBService.get_fund st fid = none) :
    Api.delete_fund st fid = (st, ApiOutcome.notFound) := by
  unfold Api.delete_fund
  rw [h]

/-- C10: deleting an existing fund reports success, removes its fund row
(it is gone from list_funds and a get returns none), removes exactly its
document metadata rows, leaves the vector index untouched, and a second
delete of the same fund reports not-found without changing the state. -/
theorem delete_fund_cascades_not_vector_index
    (st : DBState) (fund_id : String) (f : FundRecord)
    (hex : MongoDBService.get_fund st fund_id = some f)
    (hnd : (st.funds.map (fun x => x.fund_id)).Nodup) :
    (Api.delete_fund st fund_id).2 = ApiOutcome.ok
    ∧ MongoDBService.get_fund (Api.delete_fund st fund_id).1 fund_id = none
    ∧ (∀ g ∈ MongoDBService.list_funds (Api.delete_fund st fund_id).1, g.fund_id ≠ fund_id)
    ∧ (Api.delete_fund st fund_id).1.documents
        = st.documents.filter (fun d => d.fund_id != fund_id)
    ∧ (Api.delete_fund st fund_id).1.vectors = st.vectors
    ∧ Api.delete_fund (Api.delete_fund st fund_id).1 fund_id
        = ((Api.delete_fund st fund_id).1, ApiOutcome.notFound) := by
  have hex2 : st.funds.find? (fun x => x.fund_id == fund_id) = some f := hex
  have hmem := List.mem_of_find?_eq_some hex2
  have hpf := List.find?_some hex2
  have hany : st.funds.any (fun x => x.fund_id == fund_id) = true :=
    List.any_eq_true.mpr ⟨f, hmem, hpf⟩
  have hdel : Api.delete_fund st fund_id
      = ({ funds := st.funds.eraseP (fun x => x.fund_id == fund_id),
           documents := st.documents.filter (fun d => d.fund_id != fund_id),
           vectors := st.vectors }, ApiOutcome.ok) := by
    unfold Api.delete_fund
    rw [hex]
    simp [MongoDBService.delete_fund, hany]
  have hget : MongoDBService.get_fund (Api.delete_fund st fund_id).1 fund_id = none := by
    rw [hdel]
    exact find?_eraseP_eq_none st.funds fund_id hnd
  refine ⟨by rw [hdel], hget, ?_, by rw [hdel], by rw [hdel],
    api_delete_not_found _ _ hget⟩
  intro g hg hgid
  rw [hdel] at hg
  have hnone := find?_eraseP_eq_none st.funds fund_id hnd
  rw [List.find?_eq_none] at hnone
  exact hnone g hg (by simpa using hgid)

/-- A one-fund state with one document row and one indexed chunk. -/
def sampleState : DBState :=
  { funds := [⟨"f1", "Acme Fund", "Empty", 1⟩]
    documents := [⟨"d1", "f1", "a.txt"⟩]
    vectors := [⟨"d1_0", 0, 1, "d1", "f1", "a.txt", "txt", "2024", "Revenue grew."⟩] }

/-- Witness for C10 on the one-fund state. -/
theorem delete_fund_cascades_witness :
    MongoDBService.get_fund sampleState "f1" = some ⟨"f1", "Acme Fund", "Empty", 1⟩
    ∧ (sampleState.funds.map (fun x => x.fund_id)).Nodup
    ∧ (Api.delete_fund sampleState "f1").2 = ApiOutcome.ok
    ∧ MongoDBService.get_fund (Api.delete_fund sampleState "f1").1 "f1" = none
    ∧ (Api.delete_fund sampleState "f1").1.vectors = sampleState.vectors
    ∧ Api.delete_fund (Api.delete_fund sampleState "f1").1 "f1"
        = ((Api.delete_fund sampleState "f1").1, ApiOutcome.notFound) := by
  have h := delete_fund_cascades_not_vector_index sampleState "f1"
    ⟨"f1", "Acme Fund", "Empty", 1⟩ (by decide) (by decide)
  exact ⟨by decide, by decide, h.1, h.2.1, h.2.2.2.2.1, h.2.2.2.2.2⟩

/-! ## First-seen order of document names

dedupFirst is the spec-side description of the group order of the context
assembler: the file names of the chunk list in order of first occurrence.
It is compared with groupBySource, the translation of the source. -/

/-- Names in order of first occurrence, skipping names already seen. -/
def dedupFirstAux (seen : List String) : List String → List String
  | [] => []
  | x :: xs =>
      if x ∈ seen then dedupFirstAux seen xs
      else x :: dedupFirstAux (x :: seen) xs

/-- The names of a list in order of their first occurrence. -/
def dedupFirst (l : List String) : List String :=
  dedupFirstAux [] l

lemma mem_dedupFirstAux (seen l : List String) (x : String) :
    x ∈ dedupFirstAux seen l ↔ (x ∉ seen ∧ x ∈ l) := by
  induction l generalizing seen with
  | nil => simp [dedupFirstAux]
  | cons a l ih =>
      rw [dedupFirstAux]
      by_cases hxa : x = a
      · subst hxa
        split <;> simp_all [ih]
      · split <;> simp_all [ih]

lemma nodup_dedupFirstAux (seen l : List String) :
    (dedupFirstAux seen l).Nodup := by
  induction l generalizing seen with
  | nil => simp [dedupFirstAux]
  | cons a l ih =>
      rw [dedupFirstAux]
      split
      · exact ih seen
      · refine List.nodup_cons.mpr ⟨fun hmem => ?_, ih _⟩
        exact ((mem_dedupFirstAux _ _ _).mp hmem).1 (List.mem_cons_self _ _)

lemma dedupFirstAux_append (seen l : List String) (x : String) :
    dedupFirstAux seen (l ++ [x])
      = if x ∈ seen ∨ x ∈ l then dedupFirstAux seen l
        else dedupFirstAux seen l ++ [x] := by
  induction l generalizing seen with
  | nil =>
      simp only [List.nil_append, dedupFirstAux]
      by_cases hx : x ∈ seen <;> simp [hx]
  | cons a l ih =>
      by_cases ha : a ∈ seen
      · have hrec : dedupFirstAux seen (a :: l) = dedupFirstAux seen l := by
          rw [dedupFirstAux, if_pos ha]
        have hstep : dedupFirstAux seen ((a :: l) ++ [x])
            = dedupFirstAux seen (l ++ [x]) := by
          rw [List.cons_append, dedupFirstAux, if_pos ha]
        have hcond : (x ∈ seen ∨ x ∈ l) ↔ (x ∈ seen ∨ x ∈ a :: l) := by
          constructor
          · rintro (h | h)
            · exact Or.inl h
            · exact Or.inr (List.mem_cons_of_mem _ h)
          · rintro (h | h)
            · exact Or.inl h
            · rcases List.mem_cons.mp h with h1 | h2
              · subst h1; exact Or.inl ha
              · exact Or.inr h2
        rw [hstep, ih, hrec, if_congr hcond rfl rfl]
      · have hrec : dedupFirstAux seen (a :: l)
            = a :: dedupFirstAux (a :: seen) l := by
          rw [dedupFirstAux, if_neg ha]
        have hstep : dedupFirstAux seen ((a :: l) ++ [x])
            = a :: dedupFirstAux (a :: seen) (l ++ [x]) := by
          rw [List.cons_append, dedupFirstAux, if_neg ha]
        have hcond : (x ∈ a :: seen ∨ x ∈ l) ↔ (x ∈ seen ∨ x ∈ a :: l) := by
          simp only [List.mem_cons]
          tauto
        rw [hstep, ih, hrec, if_congr hcond rfl rfl]
        by_cases hC : x ∈ seen ∨ x ∈ a :: l
        · rw [if_pos hC, if_pos hC]
        · rw [if_neg hC, if_neg hC, List.cons_append]

lemma mem_dedupFirst (l : List String) (x : String) :
    x ∈ dedupFirst l ↔ x ∈ l := by
  rw [dedupFirst, mem_dedupFirstAux]
  simp

lemma nodup_dedupFirst (l : List String) : (dedupFirst l).Nodup :=
  nodup_dedupFirstAux [] l

lemma dedupFirst_append (l : List String) (x : String) :
    dedupFirst (l ++ [x])
      = if x ∈ l then dedupFirst l else dedupFirst l ++ [x] := by
  rw [dedupFirst, dedupFirstAux_append,
    if_congr (by simp : (x ∈ ([] : List String) ∨ x ∈ l) ↔ x ∈ l) rfl rfl]
  rfl

/-! ## Characterization of the grouping step -/

lemma insertGroup_of_forall_ne (gs : List (String × List Document))
    (name : String) (d : Document) (h : ∀ g ∈ gs, g.1 ≠ name) :
    insertGroup gs name d = gs ++ [(name, [d])] := by
  induction gs with
  | nil => rfl
  | cons g gs ih =>
      rw [insertGroup, if_neg (h g (List.mem_cons_self _ _)), List.cons_append,
        ih (fun x hx => h x (List.mem_cons_of_mem _ hx))]

lemma insertGroup_map_of_mem (K : List String) (F : String → List Document)
    (name : String) (d : Document) (hnd : K.Nodup) (hmem : name ∈ K) :
    insertGroup (K.map (fun n => (n, F n))) name d
      = K.map (fun n => (n, if n = name then F n ++ [d] else F n)) := by
  induction K with
  | nil => cases hmem
  | cons k K ih =>
      rw [List.map_cons, insertGroup]
      rw [List.nodup_cons] at hnd
      by_cases hk : k = name
      · subst hk
        rw [if_pos rfl, List.map_cons, if_pos rfl]
        congr 1
        apply List.map_congr_left
        intro n hn
        have hne : n ≠ k := fun he => hnd.1 (he ▸ hn)
        rw [if_neg hne]
      · rw [if_neg hk, List.map_cons, if_neg hk]
        have hmem2 : name ∈ K := by
          rcases List.mem_cons.mp hmem with h1 | h2
          · exact absurd h1.symm hk
          · exact h2
        rw [ih hnd.2 hmem2]

lemma groupBySource_append (l : List Document) (d : Document) :
    groupBySource (l ++ [d]) = insertGroup (groupBySource l) (sourceName d) d := by
  rw [groupBySource, groupBySource, List.foldl_append]
  rfl

/-- The grouping of the context assembler, characterized: one group per file
name, keyed in order of first occurrence, each holding exactly the chunks of
that name in input order. -/
lemma groupBySource_eq (docs : List Document) :
    groupBySource docs
      = (dedupFirst (docs.map sourceName)).map
          (fun n => (n, docs.filter (fun d => sourceName d == n))) := by
  induction docs using List.reverseRecOn with
  | nil => rfl
  | append_singleton l a ih =>
      rw [groupBySource_append, ih]
      have hmapapp : (l ++ [a]).map sourceName
          = l.map sourceName ++ [sourceName a] := by simp
      rw [hmapapp, dedupFirst_append]
      by_cases hmem : sourceName a ∈ l.map sourceName
      · rw [if_pos hmem]
        have hK : sourceName a ∈ dedupFirst (l.map sourceName) :=
          (mem_dedupFirst _ _).mpr hmem
        rw [insertGroup_map_of_mem _ _ _ _ (nodup_dedupFirst _) hK]
        apply List.map_congr_left
        intro n hn
        have hfil : (l ++ [a]).filter (fun d => sourceName d == n)
            = l.filter (fun d => sourceName d == n)
              ++ (if (sourceName a == n) = true then [a] else []) := by
          rw [List.filter_append, List.filter_cons, List.filter_nil]
        rw [hfil]
        by_cases hna : n = sourceName a
        · rw [if_pos hna, if_pos (beq_iff_eq.mpr hna.symm)]
        · rw [if_neg hna,
            if_neg (fun h => hna (beq_iff_eq.mp h).symm), List.append_nil]
      · rw [if_neg hmem]
        have hK : sourceName a ∉ dedupFirst (l.map sourceName) :=
          fun h => hmem ((mem_dedupFirst _ _).mp h)
        rw [insertGroup_of_forall_ne _ _ _ (fun g hg => ?_), List.map_append]
        · congr 1
          · apply List.map_congr_left
            intro n hn
            have hne : sourceName a ≠ n := fun h => hK (h ▸ hn)
            have hsingle : List.filter (fun d => sourceName d == n) [a] = [] := by
              rw [List.filter_cons,
                if_neg (fun h => hne (beq_iff_eq.mp h)), List.filter_nil]
            rw [List.filter_append, hsingle, List.append_nil]
          · have h1 : List.filter (fun d => sourceName d == sourceName a) l = [] :=
              List.filter_eq_nil_iff.mpr (fun d hd hpd =>
                hmem ((beq_iff_eq.mp hpd) ▸ List.mem_map_of_mem _ hd))
            have h2 : List.filter (fun d => sourceName d == sourceName a) (l ++ [a])
                = [a] := by
              rw [List.filter_append, h1, List.nil_append, List.filter_cons,
                if_pos (beq_iff_eq.mpr rfl), List.filter_nil]
            rw [List.map_cons, List.map_nil, h2]
        · rcases List.mem_map.mp hg with ⟨n, hn, he⟩
          rw [← he]
          exact fun h => hK (h ▸ hn)

/-- C7 amended: the context assembler emits one section per file name, the
sections stand in order of first occurrence of each file_name in the
retrieved list (not alphabetically), even when the input interleaves chunks
of different documents, and each section consists of the header of that name
followed by blocks drawn only from the chunks of that name, in input order;
what a section renders of its chunks is renderGroupBlocks, the last chunk
only, because of the rendering slip recorded under C1. -/
theorem context_groups_by_first_seen_file_name (docs : List Document) :
    groupBySource docs
      = (dedupFirst (docs.map sourceName)).map
          (fun n => (n, docs.filter (fun d => sourceName d == n)))
    ∧ formattedDocs docs
      = (dedupFirst (docs.map sourceName)).flatMap
          (fun n => headerBlock n
            :: renderGroupBlocks (docs.filter (fun d => sourceName d == n))) := by
  refine ⟨groupBySource_eq docs, ?_⟩
  rw [formattedDocs, groupBySource_eq docs, List.flatMap_map]

/-- C7 counterexample: an input interleaving two documents. The chunks of
f.txt are alpha (first) and charlie (last); the assembled output contains
one f.txt section rendering only charlie, and the text of chunk alpha occurs
nowhere in the context string, so not every chunk of f.txt appears in the
output as the claim requires. -/
theorem interleaved_chunk_missing_from_output :
    formattedDocs
        [⟨"alpha", ⟨some "f.txt", some "1", none, some 0⟩⟩,
         ⟨"bravo", ⟨some "g.txt", some "1", none, some 0⟩⟩,
         ⟨"charlie", ⟨some "f.txt", some "2", none, some 1⟩⟩]
      = ["\n--- DOCUMENT: f.txt ---\n", "[CONTENT from page 2, chunk 1]:\ncharlie",
         "\n--- DOCUMENT: g.txt ---\n", "[CONTENT from page 1, chunk 0]:\nbravo"]
    ∧ substringOf "alpha"
        (formatContext
          [⟨"alpha", ⟨some "f.txt", some "1", none, some 0⟩⟩,
           ⟨"bravo", ⟨some "g.txt", some "1", none, some 0⟩⟩,
           ⟨"charlie", ⟨some "f.txt", some "2", none, some 1⟩⟩]) = false := by
  decide

/-! ## Order and first-record properties of the deduplication loop -/

/-- The key sequence of the deduplicated sources is exactly the first-seen
deduplication of the input key sequence: keys stand in order of their first
occurrence. -/
lemma map_sourceId_dedupeAux (seen : List String) (l : List ChunkMeta) :
    (dedupeAux seen l).map sourceId = dedupFirstAux seen (l.map sourceId) := by
  induction l generalizing seen with
  | nil => simp [dedupeAux, dedupFirstAux]
  | cons s rest ih =>
      rw [dedupeAux, List.map_cons, dedupFirstAux]
      by_cases h : sourceId s ∈ seen
      · rw [if_pos h, if_pos h]
        exact ih seen
      · rw [if_neg h, if_neg h, List.map_cons, ih]

/-- Every record the loop keeps is the first input record of its key. -/
lemma dedupeAux_keeps_first (seen : List String) (l : List ChunkMeta) :
    ∀ m ∈ dedupeAux seen l,
      sourceId m ∉ seen
      ∧ l.find? (fun x => sourceId x == sourceId m) = some m := by
  induction l generalizing seen with
  | nil => simp [dedupeAux]
  | cons s rest ih =>
      intro m hm
      rw [dedupeAux] at hm
      by_cases h : sourceId s ∈ seen
      · rw [if_pos h] at hm
        obtain ⟨h1, h2⟩ := ih seen m hm
        have hne : (sourceId s == sourceId m) = false :=
          beq_eq_false_iff_ne.mpr (fun he => h1 (he ▸ h))
        have hf : List.find? (fun x => sourceId x == sourceId m) (s :: rest)
            = List.find? (fun x => sourceId x == sourceId m) rest := by
          simp [List.find?_cons, hne]
        exact ⟨h1, by rw [hf]; exact h2⟩
      · rw [if_neg h] at hm
        rcases List.mem_cons.mp hm with h1 | h2
        · subst h1
          refine ⟨h, ?_⟩
          simp [List.find?_cons]
        · obtain ⟨h1, h2⟩ := ih (sourceId s :: seen) m h2
          have hnotseen : sourceId m ∉ seen :=
            fun hc => h1 (List.mem_cons_of_mem _ hc)
          have hnes : (sourceId s == sourceId m) = false :=
            beq_eq_false_iff_ne.mpr (fun he => h1 (he ▸ List.mem_cons_self _ _))
          have hf : List.find? (fun x => sourceId x == sourceId m) (s :: rest)
              = List.find? (fun x => sourceId x == sourceId m) rest := by
            simp [List.find?_cons, hnes]
          exact ⟨hnotseen, by rw [hf]; exact h2⟩

/-- C6 amended: the identity key is hyphen-joined from file_name,
page_number and type with missing fields as empty strings; the output is a
sublist of the input, never longer, its keys carry no duplicate, a key
appears in the output exactly when it appears in the input (one record per
distinct key), the output key sequence is exactly the input key sequence
deduplicated in first-seen order, and each kept record is the first input
record of its key. -/
theorem dedupe_sources_hyphen_key (sources : List ChunkMeta) :
    (∀ m : ChunkMeta, sourceId m
        = m.file_name.getD "" ++ "-" ++ m.page_number.getD "" ++ "-" ++ m.type.getD "")
    ∧ (dedupeSources sources).Sublist sources
    ∧ (dedupeSources sources).length ≤ sources.length
    ∧ ((dedupeSources sources).map sourceId).Nodup
    ∧ (∀ k : String, k ∈ (dedupeSources sources).map sourceId ↔ k ∈ sources.map sourceId)
    ∧ (dedupeSources sources).map sourceId = dedupFirst (sources.map sourceId)
    ∧ (∀ m ∈ dedupeSources sources,
        sources.find? (fun x => sourceId x == sourceId m) = some m) := by
  refine ⟨fun m => rfl, dedupeAux_sublist [] sources,
    (dedupeAux_sublist [] sources).length_le, nodup_dedupeAux [] sources,
    fun k => ?_, map_sourceId_dedupeAux [] sources,
    fun m hm => (dedupeAux_keeps_first [] sources m hm).2⟩
  rw [dedupeSources, sourceId_mem_dedupeAux]
  simp
